import Mathlib

/-!
# cdnalizerd: the inotify wrapper and the start-up of the watch loop

A shallow embedding of `src/inotify.hpp` (classes `Watch`, `Event`, `Instance`),
of `createINotifyWatches` and `watchForFileChanges` in `src/processes/mainProcess.cpp`,
followed by theorems about them.

Conventions of the embedding
* `std::map<K, V>` is an association list `List (K × V)` read through `StdMap.find`;
  `emplace` and `insert` never overwrite an existing key, `erase` removes the key.
* `int` values are `Int`, `uint32_t` values are `Nat`; `std::string` is `String`.
* A result of a system call is a `SysResult`: the returned value and the `errno` left behind.
* A C++ function that can throw returns an `Except Err _` next to the state it leaves.
* `Watch::~Watch` calls `inotify_rm_watch` for a live handle. That call acts on the kernel
  only; the lookup tables, which are what is modelled here, are not touched by it.
-/

namespace cdnalizerd

/-! ## `std::map` -/

namespace StdMap

/-- The value stored under key `k`, as `std::map::find` locates it. -/
def find {K V : Type} [DecidableEq K] : List (K × V) → K → Option V
  | [], _ => none
  | (k', v) :: rest, k => if k' = k then some v else find rest k

/-- The members `std::map::emplace` and `std::map::insert`: the map afterwards, the element
the returned iterator points to, and whether the insertion took place. An existing key keeps
its value. -/
def emplace {K V : Type} [DecidableEq K] (m : List (K × V)) (k : K) (v : V) :
    List (K × V) × V × Bool :=
  match find m k with
  | some old => (m, old, false)
  | none => (m ++ [(k, v)], v, true)

/-- The member `std::map::erase` by key (or by an iterator to that key). -/
def erase {K V : Type} [DecidableEq K] (m : List (K × V)) (k : K) : List (K × V) :=
  m.filter (fun kv => decide (kv.1 ≠ k))

/-- The assignment `m[k] = v` through `std::map::operator[]`: the key is created when absent
and its value overwritten when present. -/
def assign {K V : Type} [DecidableEq K] : List (K × V) → K → V → List (K × V)
  | [], k, v => [(k, v)]
  | (k', v') :: rest, k, v => if k' = k then (k', v) :: rest else (k', v') :: assign rest k v

end StdMap

/-! ## Errors and system calls -/

deriving instance DecidableEq for Except

/-- The ways in which a call in `inotify.hpp` ends without returning. -/
inductive Err where
  /-- The `std::logic_error` of `Instance::addWatch` (watching the same path twice). -/
  | logic_error (what : String)
  /-- A `std::system_error` carrying `errno`. -/
  | system_error (errno : Int)
  /-- The `std::out_of_range` of `std::map::at`. -/
  | out_of_range
  /-- The `std::length_error` of `std::string::reserve` for a size above `max_size()`. -/
  | length_error
  /-- Not an exception: the code reads outside the array `events`. The behaviour of the C++
  program is undefined from there on, and the model stops with this mark. -/
  | out_of_bounds
  deriving DecidableEq, Repr

/-- What a system call hands back: its return value and the `errno` it leaves. -/
structure SysResult where
  ret : Int
  errno : Int
  deriving DecidableEq, Repr

/-- The value of `EINTR` in `<errno.h>` on Linux. -/
def EINTR : Int := 4

/-! ## `class Watch` -/

/-- A watch on a single directory (`class Watch`, inotify.hpp lines 13 to 61). -/
structure Watch where
  inotify_handle : Int := 0
  _handle : Int := -1
  path : String := ""
  deriving DecidableEq, Repr

namespace Watch

/-- The private member `erase`: forgets the resources, leaves `path` alone. -/
def erase (w : Watch) : Watch :=
  { w with inotify_handle := 0, _handle := -1 }

/-- The constructor `Watch(int inotify_handle, const char *path, uint32_t mask)`;
`os` is what `inotify_add_watch(inotify_handle, path, mask)` returns. -/
def new (inotify_handle : Int) (path : String) (_mask : Nat) (os : SysResult) : Except Err Watch :=
  let w : Watch := { inotify_handle := inotify_handle, _handle := os.ret, path := path }
  if w._handle = -1 then .error (.system_error os.errno) else .ok w

/-- The move constructor `Watch(Watch &&other)`: its member initialisers name
`inotify_handle` and `_handle` only, so `path` is default-constructed (empty); `other` is
then erased. Returns the new object and `other` as it is left. -/
def move (other : Watch) : Watch × Watch :=
  ({ inotify_handle := other.inotify_handle, _handle := other._handle, path := "" }, other.erase)

/-- The accessor `handle()`. -/
def handle (w : Watch) : Int := w._handle

end Watch

/-! ## `struct Instance`: the two lookup tables -/

/-- A collection of watches (`struct Instance`, inotify.hpp lines 128 to 197). -/
structure Instance where
  handle : Int
  /-- Watch handle to watcher lookup. -/
  watches : List (Int × Watch) := []
  /-- Path to watcher handle lookup. -/
  paths : List (String × Int) := []
  deriving DecidableEq, Repr

namespace Instance

/-- The member `watchFromHandle`: `watches.at(handle)`. -/
def watchFromHandle (inst : Instance) (handle : Int) : Except Err Watch :=
  match StdMap.find inst.watches handle with
  | some w => .ok w
  | none => .error .out_of_range

/-- The member `alreadyWatching`. -/
def alreadyWatching (inst : Instance) (path : String) : Bool :=
  (StdMap.find inst.paths path).isSome

/-- The member `addWatch`; `os` is the result of the `inotify_add_watch` call made by the
`Watch` constructor. Returns what the call yields (the `Watch` the returned reference
designates, or the exception) and the instance afterwards.

The statements of the C++ body, in order: the duplicate check on `paths`; the construction
of the local `watch` (in place, `auto watch = Watch(...)` being elided); `std::make_pair(watch.handle(), std::move(watch))`, which
move-constructs the pair's `Watch` from `watch`; `watches.emplace`, which move-constructs
the node's `Watch` from the pair's; `paths.insert` of `watch.path` and `watch.handle()` read
from the local `watch` after it has been moved from; the return of `result.first->second`. -/
def addWatch (inst : Instance) (path : String) (mask : Nat) (os : SysResult) :
    Except Err Watch × Instance :=
  match StdMap.find inst.paths path with
  | some _ => (.error (.logic_error "Can't watch the same path twice"), inst)
  | none =>
    match Watch.new inst.handle path mask os with
    | .error e => (.error e, inst)
    | .ok watch =>
      let key := watch.handle
      let (inPair, watch) := Watch.move watch
      let (inNode, _) := Watch.move inPair
      let (watches, resultFirstSecond, _) := StdMap.emplace inst.watches key inNode
      let (paths, _, _) := StdMap.emplace inst.paths watch.path watch.handle
      (.ok resultFirstSecond, { inst with watches := watches, paths := paths })

/-- The overload `removeWatch(Watch &watch)`. -/
def removeWatch (inst : Instance) (watch : Watch) : Instance :=
  match StdMap.find inst.watches watch.handle with
  | some foundSecond =>
    let paths := StdMap.erase inst.paths foundSecond.path
    let watches := StdMap.erase inst.watches watch.handle
    { inst with watches := watches, paths := paths }
  | none => inst

/-- The overload `removeWatch(const std::string &path)`. -/
def removeWatchPath (inst : Instance) (path : String) : Instance :=
  match StdMap.find inst.paths path with
  | some handle =>
    let watches := StdMap.erase inst.watches handle
    let paths := StdMap.erase inst.paths path
    { inst with watches := watches, paths := paths }
  | none => inst

/-- The two tables agree: `paths` maps `p` to `h` exactly when `watches` maps `h` to a
`Watch` whose handle is `h` and whose path is `p`. -/
def Consistent (inst : Instance) : Prop :=
  ∀ (p : String) (h : Int),
    StdMap.find inst.paths p = some h ↔
      ∃ w, StdMap.find inst.watches h = some w ∧ w.handle = h ∧ w.path = p

end Instance

/-- The constant `maskToFollow` of mainProcess.cpp:
`IN_CREATE | IN_CLOSE_WRITE | IN_DELETE | IN_MOVED_FROM | IN_MOVED_TO`. -/
def maskToFollow : Nat := 0x100 ||| 0x8 ||| 0x200 ||| 0x40 ||| 0x80

/-- An instance with no watch, on inotify descriptor 3. -/
def emptyInstance : Instance := { handle := 3 }

/-! ## `struct Event` and `Instance::waitForEvents` -/

/-- An event that happened to a file (`struct Event`, inotify.hpp lines 64 to 125).
The member `watch` is the closure built in `waitForEvents`, which captures `handle` and
`this` and returns `watches.at(handle)`; it is represented by the captured handle and
evaluated by `Event.getWatch` against the instance at the time of the call. -/
structure Event where
  watch : Int
  watch_handle : Int
  mask : Nat
  cookie : Nat
  name : String
  deriving DecidableEq, Repr

/-- The value of `sizeof(inotify_event)`: the members `int wd`, `uint32_t mask`,
`uint32_t cookie`, `uint32_t len` of `<sys/inotify.h>`, followed by `char name[]`. -/
def sizeofInotifyEvent : Nat := 16

/-- The constant `max_event_count` of `waitForEvents`. -/
def max_event_count : Nat := 20

/-- The constant `buf_size` of `waitForEvents`. -/
def buf_size : Nat := max_event_count * sizeofInotifyEvent

/-- The 32-bit little-endian word stored at offset `off` of a byte buffer. The loop calls
it only for a header that lies inside the array; a byte outside the buffer reads as 0. -/
def readU32 (buf : List Nat) (off : Nat) : Nat :=
  buf.getD off 0 + 256 * buf.getD (off + 1) 0 + 65536 * buf.getD (off + 2) 0
    + 16777216 * buf.getD (off + 3) 0

/-- Conversion of a 32-bit word to `int`. -/
def toInt32 (n : Nat) : Int :=
  if n % 4294967296 < 2147483648 then (n % 4294967296 : Nat) else (n % 4294967296 : Nat) - 4294967296

/-- The constructor `Event(watch, watch_handle, mask, cookie, namePtr, nameLen)`, with
`namePtr` the offset of the name in the array `buf`.
* `name.reserve(nameLen)`: `nameLen` is an `int`; a negative value converts to a
  `size_type` above `max_size()` and `reserve` throws `std::length_error`. For the other
  values the allocation is taken to succeed.
* `std::copy(namePtr, &namePtr[nameLen], ...)` reads the `nameLen` bytes from `namePtr` on;
  when they do not all lie inside the array the read is out of bounds.
* Otherwise `name` is exactly these `nameLen` bytes. -/
def Event.new (watch : Int) (watch_handle : Int) (mask cookie : Nat) (buf : List Nat)
    (namePtr : Nat) (nameLen : Int) : Except Err Event :=
  if nameLen < 0 then .error .length_error
  else if buf.length < namePtr + nameLen.toNat then .error .out_of_bounds
  else .ok
    { watch := watch, watch_handle := watch_handle, mask := mask, cookie := cookie,
      name := String.mk (((buf.drop namePtr).take nameLen.toNat).map Char.ofNat) }

/-- The `while (loc < events + len)` loop of `waitForEvents`; `loc` is the offset of the
pointer `loc` from `events`, and `events` is the whole array as `read` leaves it. One unit
of fuel is spent per evaluation of the loop condition; `none` means the fuel ran out
before the condition became false. A header that does not lie inside the array is an
out-of-bounds read; an exception of the `Event` constructor leaves the loop. -/
def decodeEvents : Nat → List Nat → Int → Nat → List Event →
    Option (Except Err (List Event))
  | 0, _, _, _, _ => none
  | fuel + 1, events, len, loc, result =>
    if (loc : Int) < len then
      if events.length < loc + sizeofInotifyEvent then some (.error .out_of_bounds)
      else
        let handle := toInt32 (readU32 events loc)
        let mask := readU32 events (loc + 4)
        let cookie := readU32 events (loc + 8)
        let eventLen := readU32 events (loc + 12)
        match Event.new handle handle mask cookie events (loc + 16) (toInt32 eventLen) with
        | .error e => some (.error e)
        | .ok ev =>
          decodeEvents fuel events len (loc + (eventLen + sizeofInotifyEvent)) (result ++ [ev])
    else some (.ok result)

namespace Instance

/-- The member `waitForEvents`. `rd` is what the single call `read(handle, events, buf_size)`
returns and `events` is the array `events` as that call leaves it. There is no second call
of `read` and no loop around it. The decoding loop advances `loc` by at least
`sizeof(inotify_event)` each round, so `len + 1` units of fuel are enough (theorem
`decodeEvents_total`); `none` would mean that the loop did not finish. -/
def waitForEvents (_inst : Instance) (rd : SysResult) (events : List Nat) :
    Option (Except Err (List Event)) :=
  let len : Int := rd.ret
  if len = -1 then some (.error (.system_error rd.errno))
  else decodeEvents (len.toNat + 1) events len 0 []

end Instance

/-- The member `Event::watch()`: the stored closure, run against the instance. -/
def Event.getWatch (inst : Instance) (e : Event) : Except Err Watch :=
  inst.watchFromHandle e.watch

/-- The member `Event::path()`. The parameter `joinPaths` is `cdnalizerd::joinPaths`, declared in
utils.hpp as `std::string joinPaths(const std::string &base, const std::string &extra)`: it
takes `out` by reference to const and its returned string is not used by `path()`. -/
def Event.path (joinPaths : String → String → String) (inst : Instance) (e : Event) :
    Except Err String :=
  match e.getWatch inst with
  | .error err => .error err
  | .ok w =>
    let out := w.path
    let _discarded := joinPaths out e.name
    .ok out

/-- One inotify record: the header fields and the `len` bytes of `name`. -/
structure Record where
  wd : Int
  mask : Nat
  cookie : Nat
  name : List Nat
  deriving DecidableEq, Repr

/-- The four bytes of a 32-bit word, least significant first. -/
def le32 (x : Nat) : List Nat :=
  [x % 256, x / 256 % 256, x / 65536 % 256, x / 16777216 % 256]

namespace Record

/-- The header fields fit their C types. -/
def WellFormed (r : Record) : Prop :=
  -2147483648 ≤ r.wd ∧ r.wd < 2147483648 ∧ r.mask < 4294967296 ∧ r.cookie < 4294967296

instance (r : Record) : Decidable r.WellFormed := by
  unfold WellFormed; infer_instance

/-- The bytes of the record: the 16-byte header, then `len` bytes of name. -/
def encode (r : Record) : List Nat :=
  le32 (r.wd % 4294967296).toNat ++ (le32 r.mask ++ (le32 r.cookie ++
    (le32 r.name.length ++ r.name)))

/-- The event that carries the record's watch handle, mask, cookie and name. -/
def toEvent (r : Record) : Event :=
  { watch := r.wd, watch_handle := r.wd, mask := r.mask, cookie := r.cookie,
    name := String.mk (r.name.map Char.ofNat) }

end Record

/-- The concatenation of the records, in the order received. -/
def encodeAll : List Record → List Nat
  | [] => []
  | r :: rs => r.encode ++ encodeAll rs

/-! ## mainProcess.cpp: `createINotifyWatches` -/

/-- Modelled from the spec: the type `ConfigEntry` is declared in `config_reader/config.hpp`,
which is not among the sources; the spec gives it as
`{username, region, snet(bool), local_dir, container, remote_dir}`. -/
structure ConfigEntry where
  username : String := ""
  region : String := ""
  snet : Bool := false
  local_dir : String := ""
  container : String := ""
  remote_dir : String := ""
  deriving DecidableEq, Repr

/-- Conversion of an `int` to the `uint32_t` key of `WatchToConfig`. -/
def toUInt32 (h : Int) : Nat := (h % 4294967296).toNat

/-- The callback handed to `walkDir` by `createINotifyWatches`:
`if (!inotify.alreadyWatching(path)) inotify.addWatch(path, maskToFollow);`.
`os path` is what `inotify_add_watch` returns for `path`. -/
def walkCallback (os : String → SysResult) (inotify : Instance) (path : String) :
    Except Err Unit × Instance :=
  if !inotify.alreadyWatching path then
    match inotify.addWatch path maskToFollow (os path) with
    | (.error e, inotify1) => (.error e, inotify1)
    | (.ok _, inotify1) => (.ok (), inotify1)
  else (.ok (), inotify)

/-- The calls of the callback made by one `walkDir`, one for each subdirectory it reports,
in order; an exception thrown by the callback ends the walk. -/
def walkDirCalls (os : String → SysResult) : List String → Instance → Except Err Unit × Instance
  | [], inotify => (.ok (), inotify)
  | path :: more, inotify =>
    match walkCallback os inotify path with
    | (.error e, inotify1) => (.error e, inotify1)
    | (.ok _, inotify1) => walkDirCalls os more inotify1

/-- The function `createINotifyWatches` (mainProcess.cpp lines 31 to 42), by recursion over
`config.entries()`. `walkDir` is declared in utils.hpp (calls the callback for each
subdirectory) and defined outside the sources: `walkDir dir` is the list of subdirectories
it reports for `dir`. `watchToConfig` is the `std::map<uint32_t, ConfigEntry>`. -/
def createINotifyWatches (walkDir : String → List String) (os : String → SysResult) :
    List ConfigEntry → Instance → List (Nat × ConfigEntry) →
      Except Err Unit × Instance × List (Nat × ConfigEntry)
  | [], inotify, watchToConfig => (.ok (), inotify, watchToConfig)
  | entry :: rest, inotify, watchToConfig =>
    match inotify.addWatch entry.local_dir maskToFollow (os entry.local_dir) with
    | (.error e, inotify1) => (.error e, inotify1, watchToConfig)
    | (.ok watch, inotify1) =>
      let watchToConfig1 := StdMap.assign watchToConfig (toUInt32 watch.handle) entry
      match walkDirCalls os (walkDir entry.local_dir) inotify1 with
      | (.error e, inotify2) => (.error e, inotify2, watchToConfig1)
      | (.ok _, inotify2) => createINotifyWatches walkDir os rest inotify2 watchToConfig1

/-! ## mainProcess.cpp: `watchForFileChanges`

Lines 60 to 136 of mainProcess.cpp are one block comment. The body of the function as it
is compiled is lines 45 to 58: the construction of the `Instance`, `createINotifyWatches`,
`login`, the construction of the `WorkerManager` and `syncAllDirectories`. It has no loop,
no call of `waitForEvents`, no object of type `Cookies` and no statement that hands an
event on. -/

/-- The constructor `Instance()`; `init` is what `inotify_init()` returns. -/
def Instance.new (init : SysResult) : Except Err Instance :=
  if init.ret = -1 then .error (.system_error init.errno) else .ok { handle := init.ret }

/-- Modelled from the spec: `joinPaths` is declared in utils.hpp with the comment "Joins two
urls with exactly one path separator" and defined outside the sources. The separators that
end `base` and those that start `extra` are dropped and one separator is put between. -/
def joinPaths (base extra : String) : String :=
  String.mk ((base.data.reverse.dropWhile (fun c => c == '/')).reverse ++
    ('/' :: extra.data.dropWhile (fun c => c == '/')))

/-! ## Concrete inputs used below -/

/-- The instance after `addWatch("/data", maskToFollow)` on `emptyInstance`, the kernel
returning descriptor 1. -/
def watchingData : Instance := (emptyInstance.addWatch "/data" maskToFollow ⟨1, 0⟩).2

/-- A registry written down directly, whose two tables agree on the watch 1 of "/data". -/
def dataInstance : Instance :=
  { handle := 3, watches := [(1, ⟨3, 1, "/data"⟩)], paths := [("/data", 1)] }

/-- An `IN_CREATE` event for "a.txt" on watch 1. -/
def createdA : Event := { watch := 1, watch_handle := 1, mask := 0x100, cookie := 0, name := "a.txt" }

/-- A configuration entry for the directory "/data". -/
def dataEntry : ConfigEntry := { username := "u", local_dir := "/data", container := "c1" }

/-- A directory walk that reports the one subdirectory "/data/sub" of "/data". -/
def walkData (dir : String) : List String :=
  if dir = "/data" then ["/data/sub"] else []

/-- A kernel that hands out descriptor 1 for "/data" and 2 for "/data/sub", and fails with
`ENOENT` elsewhere. -/
def osData (path : String) : SysResult :=
  if path = "/data" then ⟨1, 0⟩ else if path = "/data/sub" then ⟨2, 0⟩ else ⟨-1, 2⟩

/-! # Theorems -/

/-! ## Lemmas on `StdMap` -/

namespace StdMap

theorem find_erase_self {K V : Type} [DecidableEq K] (m : List (K × V)) (k : K) :
    find (erase m k) k = none := by
  induction m with
  | nil => rfl
  | cons kv rest ih =>
    obtain ⟨k', v⟩ := kv
    by_cases h : k' = k
    · simpa [erase, List.filter_cons, h] using ih
    · simpa [erase, List.filter_cons, h, find] using ih

theorem erase_of_find_none {K V : Type} [DecidableEq K] (m : List (K × V)) (k : K)
    (h : find m k = none) : erase m k = m := by
  induction m with
  | nil => rfl
  | cons kv rest ih =>
    obtain ⟨k', v⟩ := kv
    by_cases hk : k' = k
    · simp [find, hk] at h
    · simp only [find, hk, if_false] at h
      have := ih h
      simp only [erase] at this ⊢
      rw [List.filter_cons, this]
      simp [hk]

theorem find_append_single {K V : Type} [DecidableEq K] (m : List (K × V)) (k k' : K) (v : V) :
    find (m ++ [(k, v)]) k' = match find m k' with
      | some x => some x
      | none => if k = k' then some v else none := by
  induction m with
  | nil => simp [find]
  | cons kv rest ih =>
    obtain ⟨k₀, v₀⟩ := kv
    by_cases hk : k₀ = k'
    · simp [find, hk]
    · simpa [find, hk] using ih

end StdMap

/-! ## The watch registry -/

namespace Instance

/-- What `addWatch` does for a path that is not watched yet when the kernel hands out a
descriptor that is not a key of `watches`: the node stored under the descriptor has an
empty `path`, and `paths` receives the handle of the moved-from local, which is -1. -/
theorem addWatch_fresh (inst : Instance) (path : String) (mask : Nat) (os : SysResult)
    (hp : StdMap.find inst.paths path = none) (hos : os.ret ≠ -1)
    (hw : StdMap.find inst.watches os.ret = none) :
    inst.addWatch path mask os =
      (.ok ⟨inst.handle, os.ret, ""⟩,
        { inst with
          watches := inst.watches ++ [(os.ret, ⟨inst.handle, os.ret, ""⟩)],
          paths := inst.paths ++ [(path, -1)] }) := by
  simp [addWatch, hp, Watch.new, hos, Watch.move, Watch.handle, Watch.erase, StdMap.emplace, hw]

/-- The handle lookup fails exactly on the handles that are not keys of `watches`. -/
theorem watchFromHandle_eq (inst : Instance) (h : Int) :
    (StdMap.find inst.watches h = none → inst.watchFromHandle h = .error .out_of_range) ∧
    (∀ w, StdMap.find inst.watches h = some w → inst.watchFromHandle h = .ok w) := by
  constructor
  · intro hn; simp [watchFromHandle, hn]
  · intro w hs; simp [watchFromHandle, hs]

end Instance

/-- C1, evaluated on the code. On an instance without watches, where the two tables agree,
one call `addWatch("/data", maskToFollow)` for which the kernel returns descriptor 1 leaves
`paths` mapping "/data" to -1 and `watches` mapping 1 to a `Watch` with an empty path:
the tables no longer agree. -/
theorem addWatch_tables_disagree :
    emptyInstance.Consistent ∧
    (emptyInstance.addWatch "/data" maskToFollow ⟨1, 0⟩).1 = .ok ⟨3, 1, ""⟩ ∧
    (emptyInstance.addWatch "/data" maskToFollow ⟨1, 0⟩).2.paths = [("/data", -1)] ∧
    (emptyInstance.addWatch "/data" maskToFollow ⟨1, 0⟩).2.watches = [(1, ⟨3, 1, ""⟩)] ∧
    ¬ (emptyInstance.addWatch "/data" maskToFollow ⟨1, 0⟩).2.Consistent := by
  refine ⟨?_, by decide, by decide, by decide, ?_⟩
  · intro p h
    simp [emptyInstance, StdMap.find]
  · intro hc
    have h := (hc "/data" (-1)).mp (by decide)
    obtain ⟨w, hw, -, -⟩ := h
    have hnone : StdMap.find
        (emptyInstance.addWatch "/data" maskToFollow ⟨1, 0⟩).2.watches (-1) = none := by decide
    rw [hnone] at hw
    cases hw

/-- C2. `addWatch` on a path that is already watched throws the logic error of the
duplicate check and leaves the instance, both tables included, as it was; on a path that
is not watched, with a descriptor other than -1 from the kernel, it returns a `Watch`. -/
theorem addWatch_duplicate_or_success (inst : Instance) (path : String) (mask : Nat)
    (os : SysResult) :
    (inst.alreadyWatching path = true →
      inst.addWatch path mask os =
        (.error (.logic_error "Can't watch the same path twice"), inst)) ∧
    (inst.alreadyWatching path = false → os.ret ≠ -1 →
      ∃ w, (inst.addWatch path mask os).1 = .ok w) := by
  constructor
  · intro h
    cases hf : StdMap.find inst.paths path with
    | none => simp [Instance.alreadyWatching, hf] at h
    | some x => simp [Instance.addWatch, hf]
  · intro h hos
    cases hf : StdMap.find inst.paths path with
    | some x => simp [Instance.alreadyWatching, hf] at h
    | none =>
      simp only [Instance.addWatch, hf, Watch.new, hos, if_false]
      exact ⟨_, rfl⟩

/-- Witness of C2: the duplicate case on the instance that watches "/data", the
successful case on the instance without watches. -/
theorem addWatch_duplicate_or_success_witness :
    (emptyInstance.addWatch "/data" maskToFollow ⟨1, 0⟩).2.addWatch "/data" maskToFollow ⟨2, 0⟩ =
      (.error (.logic_error "Can't watch the same path twice"),
        (emptyInstance.addWatch "/data" maskToFollow ⟨1, 0⟩).2) ∧
    ∃ w, (emptyInstance.addWatch "/data" maskToFollow ⟨1, 0⟩).1 = .ok w :=
  ⟨(addWatch_duplicate_or_success _ "/data" maskToFollow ⟨2, 0⟩).1 (by decide),
   (addWatch_duplicate_or_success emptyInstance "/data" maskToFollow ⟨1, 0⟩).2
     (by decide) (by decide)⟩

/-- C3, evaluated on the code. After the successful `addWatch("/data", maskToFollow)` with
descriptor 1 from the kernel, the returned `Watch` has handle 1 and an empty path,
`watchFromHandle(1)` returns that same `Watch`, and `paths` maps "/data" to -1, not to 1;
`alreadyWatching("/data")` is true. -/
theorem addWatch_registers_empty_path_and_minus_one :
    (emptyInstance.addWatch "/data" maskToFollow ⟨1, 0⟩).1
      = .ok { inotify_handle := 3, _handle := 1, path := "" } ∧
    (emptyInstance.addWatch "/data" maskToFollow ⟨1, 0⟩).2.watchFromHandle 1
      = .ok { inotify_handle := 3, _handle := 1, path := "" } ∧
    StdMap.find (emptyInstance.addWatch "/data" maskToFollow ⟨1, 0⟩).2.paths "/data"
      = some (-1) ∧
    (emptyInstance.addWatch "/data" maskToFollow ⟨1, 0⟩).2.alreadyWatching "/data" = true := by
  decide

/-- C4, evaluated on the code. "/data" is added (descriptor 1) and removed again.
Removed by path: `watchFromHandle(1)` still succeeds, because `paths` held -1 and
`watches.erase(-1)` erased nothing. Removed through the `Watch` that `addWatch` returned:
`watchFromHandle(1)` fails, but `alreadyWatching("/data")` is still true, because the
stored `Watch` has an empty path and `paths.erase("")` erased nothing. -/
theorem removeWatch_leaves_one_table_behind :
    ((emptyInstance.addWatch "/data" maskToFollow ⟨1, 0⟩).2.removeWatchPath "/data").watchFromHandle 1
      = .ok { inotify_handle := 3, _handle := 1, path := "" } ∧
    ((emptyInstance.addWatch "/data" maskToFollow ⟨1, 0⟩).2.removeWatchPath "/data").alreadyWatching
      "/data" = false ∧
    ((emptyInstance.addWatch "/data" maskToFollow ⟨1, 0⟩).2.removeWatch
      { inotify_handle := 3, _handle := 1, path := "" }).watchFromHandle 1
      = .error .out_of_range ∧
    ((emptyInstance.addWatch "/data" maskToFollow ⟨1, 0⟩).2.removeWatch
      { inotify_handle := 3, _handle := 1, path := "" }).alreadyWatching "/data" = true := by
  decide

/-- C5. `removeWatch(path)` on a path that is not watched returns the instance as it
was (the model of `removeWatch` has no failing outcome: its body has no `throw`, and for
an absent path nothing after the `find` runs); and for every instance and every path, a
second `removeWatch(path)` changes nothing that the first left. -/
theorem removeWatchPath_noop_idempotent (inst : Instance) (path : String) :
    (inst.alreadyWatching path = false → inst.removeWatchPath path = inst) ∧
    (inst.removeWatchPath path).removeWatchPath path = inst.removeWatchPath path := by
  constructor
  · intro h
    cases hf : StdMap.find inst.paths path with
    | some x => simp [Instance.alreadyWatching, hf] at h
    | none => simp [Instance.removeWatchPath, hf]
  · cases hf : StdMap.find inst.paths path with
    | none => simp [Instance.removeWatchPath, hf]
    | some x =>
      simp only [Instance.removeWatchPath, hf, StdMap.find_erase_self]

/-- Witness of C5 on the instance that watches "/data": removing "/tmp", which is not
watched, and removing "/data" twice. -/
theorem removeWatchPath_noop_idempotent_witness :
    (emptyInstance.addWatch "/data" maskToFollow ⟨1, 0⟩).2.removeWatchPath "/tmp"
      = (emptyInstance.addWatch "/data" maskToFollow ⟨1, 0⟩).2 ∧
    (((emptyInstance.addWatch "/data" maskToFollow ⟨1, 0⟩).2.removeWatchPath
        "/data").removeWatchPath "/data")
      = (emptyInstance.addWatch "/data" maskToFollow ⟨1, 0⟩).2.removeWatchPath "/data" :=
  ⟨(removeWatchPath_noop_idempotent _ "/tmp").1 (by decide),
   (removeWatchPath_noop_idempotent _ "/data").2⟩

/-! ## `waitForEvents` -/

theorem getD_append_offset (pre l : List Nat) (i : Nat) :
    (pre ++ l).getD (pre.length + i) 0 = l.getD i 0 := by
  simp [List.getD_eq_getElem?_getD, List.getElem?_append_right]

/-- Reading back a little-endian word that sits right after `pre`. -/
theorem readU32_le32 (pre post : List Nat) (x off : Nat) (hoff : off = pre.length)
    (hx : x < 4294967296) : readU32 (pre ++ (le32 x ++ post)) off = x := by
  subst hoff
  have h0 := getD_append_offset pre (le32 x ++ post) 0
  have h1 := getD_append_offset pre (le32 x ++ post) 1
  have h2 := getD_append_offset pre (le32 x ++ post) 2
  have h3 := getD_append_offset pre (le32 x ++ post) 3
  simp only [Nat.add_zero] at h0
  unfold readU32
  rw [h0, h1, h2, h3]
  simp only [le32, List.cons_append, List.getD_cons_zero, List.getD_cons_succ]
  omega

theorem toInt32_wd (wd : Int) (h1 : -2147483648 ≤ wd) (h2 : wd < 2147483648) :
    toInt32 (wd % 4294967296).toNat = wd := by
  unfold toInt32
  have hnn : 0 ≤ wd % 4294967296 := Int.emod_nonneg _ (by decide)
  have hlt : wd % 4294967296 < 4294967296 := Int.emod_lt_of_pos _ (by decide)
  have hcast : (((wd % 4294967296).toNat : Nat) : Int) = wd % 4294967296 := Int.toNat_of_nonneg hnn
  have hmod : (wd % 4294967296).toNat % 4294967296 = (wd % 4294967296).toNat := by
    apply Nat.mod_eq_of_lt
    omega
  rw [hmod]
  split_ifs with hlt2
  · omega
  · omega

theorem length_le32 (x : Nat) : (le32 x).length = 4 := rfl

theorem length_encode (r : Record) : r.encode.length = r.name.length + 16 := by
  simp [Record.encode, length_le32]
  omega

theorem length_le_encodeAll (rs : List Record) : rs.length ≤ (encodeAll rs).length := by
  induction rs with
  | nil => simp [encodeAll]
  | cons r rs ih =>
    simp [encodeAll, length_encode]
    omega

theorem length_encode_le_encodeAll (rs : List Record) (r : Record) (hr : r ∈ rs) :
    r.name.length + 16 ≤ (encodeAll rs).length := by
  induction rs with
  | nil => cases hr
  | cons r' rs ih =>
    simp only [encodeAll, List.length_append, length_encode]
    rcases List.mem_cons.mp hr with h | h
    · subst h; omega
    · have := ih h; omega

/-- One round of the loop on a buffer that holds the record `r` right after `pre`. -/
theorem decodeEvents_step (r : Record) (pre post : List Nat) (len : Int) (fuel : Nat)
    (acc : List Event) (hwf : r.WellFormed) (hname : r.name.length < 2147483648)
    (hlen : (pre.length : Int) < len) :
    decodeEvents (fuel + 1) (pre ++ (r.encode ++ post)) len pre.length acc =
      decodeEvents fuel ((pre ++ r.encode) ++ post) len (pre ++ r.encode).length
        (acc ++ [r.toEvent]) := by
  obtain ⟨h1, h2, h3, h4⟩ := hwf
  have hbits : (r.wd % 4294967296).toNat < 4294967296 := by
    have hnn : 0 ≤ r.wd % 4294967296 := Int.emod_nonneg _ (by decide)
    have hlt : r.wd % 4294967296 < 4294967296 := Int.emod_lt_of_pos _ (by decide)
    omega
  have hl : r.name.length < 4294967296 := by omega
  have e1 : readU32 (pre ++ (r.encode ++ post)) pre.length = (r.wd % 4294967296).toNat := by
    have := readU32_le32 pre (le32 r.mask ++ (le32 r.cookie ++ (le32 r.name.length ++
      (r.name ++ post)))) (r.wd % 4294967296).toNat pre.length rfl hbits
    simpa [Record.encode] using this
  have e2 : readU32 (pre ++ (r.encode ++ post)) (pre.length + 4) = r.mask := by
    have := readU32_le32 (pre ++ le32 (r.wd % 4294967296).toNat)
      (le32 r.cookie ++ (le32 r.name.length ++ (r.name ++ post))) r.mask (pre.length + 4)
      (by simp [length_le32]) h3
    simpa [Record.encode] using this
  have e3 : readU32 (pre ++ (r.encode ++ post)) (pre.length + 8) = r.cookie := by
    have := readU32_le32 (pre ++ (le32 (r.wd % 4294967296).toNat ++ le32 r.mask))
      (le32 r.name.length ++ (r.name ++ post)) r.cookie (pre.length + 8)
      (by simp [length_le32]) h4
    simpa [Record.encode] using this
  have e4 : readU32 (pre ++ (r.encode ++ post)) (pre.length + 12) = r.name.length := by
    have := readU32_le32 (pre ++ (le32 (r.wd % 4294967296).toNat ++ (le32 r.mask ++
      le32 r.cookie))) (r.name ++ post) r.name.length (pre.length + 12)
      (by simp [length_le32]) hl
    simpa [Record.encode] using this
  have e5 : ((pre ++ (r.encode ++ post)).drop (pre.length + 16)).take r.name.length = r.name := by
    have hsplit : pre ++ (r.encode ++ post) =
        (pre ++ (le32 (r.wd % 4294967296).toNat ++ (le32 r.mask ++ (le32 r.cookie ++
          le32 r.name.length)))) ++ (r.name ++ post) := by
      simp [Record.encode]
    have hlen16 : (pre ++ (le32 (r.wd % 4294967296).toNat ++ (le32 r.mask ++ (le32 r.cookie ++
          le32 r.name.length)))).length = pre.length + 16 := by
      simp [length_le32]
    rw [hsplit, ← hlen16, List.drop_left, List.take_left]
  have e6 : toInt32 r.name.length = (r.name.length : Int) := by
    unfold toInt32
    have hmod : r.name.length % 4294967296 = r.name.length := Nat.mod_eq_of_lt hl
    rw [hmod, if_pos hname]
  have hnew : Event.new r.wd r.wd r.mask r.cookie (pre ++ (r.encode ++ post))
      (pre.length + 16) (r.name.length : Int) = .ok r.toEvent := by
    have hnn : ¬ ((r.name.length : Int) < 0) := by omega
    have hin : ¬ ((pre ++ (r.encode ++ post)).length < pre.length + 16 + r.name.length) := by
      simp only [List.length_append, length_encode]
      omega
    simp only [Event.new, if_neg hnn, Int.toNat_ofNat, if_neg hin, e5]
    rfl
  have hhead : ¬ ((pre ++ (r.encode ++ post)).length < pre.length + sizeofInotifyEvent) := by
    simp only [List.length_append, length_encode, sizeofInotifyEvent]
    omega
  have hloc : pre.length + (r.name.length + sizeofInotifyEvent) = (pre ++ r.encode).length := by
    simp [length_encode, sizeofInotifyEvent]
  rw [decodeEvents, if_pos hlen, if_neg hhead]
  simp only [e1, e2, e3, e4, e6, toInt32_wd r.wd h1 h2, hnew]
  rw [hloc, List.append_assoc]

/-- The loop decodes a concatenation of well-formed records into their events, in order. -/
theorem decodeEvents_encodeAll (rs : List Record) :
    ∀ (pre junk : List Nat) (acc : List Event) (fuel : Nat), rs.length < fuel →
      (∀ r ∈ rs, r.WellFormed ∧ r.name.length < 2147483648) →
      decodeEvents fuel (pre ++ (encodeAll rs ++ junk))
        ((pre.length + (encodeAll rs).length : Nat) : Int) pre.length acc
        = some (.ok (acc ++ rs.map Record.toEvent)) := by
  induction rs with
  | nil =>
    intro pre junk acc fuel hf _
    cases fuel with
    | zero => simp at hf
    | succ n => simp [decodeEvents, encodeAll]
  | cons r rs ih =>
    intro pre junk acc fuel hf hwf
    cases fuel with
    | zero => simp at hf
    | succ n =>
      obtain ⟨hr, hname⟩ := hwf r (List.mem_cons_self _ _)
      have hlt : (pre.length : Int) < ((pre.length + (encodeAll (r :: rs)).length : Nat) : Int) := by
        simp only [encodeAll, List.length_append, length_encode]
        omega
      have hstep := decodeEvents_step r pre (encodeAll rs ++ junk)
        ((pre.length + (encodeAll (r :: rs)).length : Nat) : Int) n acc hr hname hlt
      have hbuf : pre ++ (encodeAll (r :: rs) ++ junk) = pre ++ (r.encode ++ (encodeAll rs ++ junk)) := by
        simp [encodeAll]
      have hlen : pre.length + (encodeAll (r :: rs)).length
          = (pre ++ r.encode).length + (encodeAll rs).length := by
        simp [encodeAll]
        omega
      rw [hbuf, hstep, hlen, List.append_assoc]
      have := ih (pre ++ r.encode) junk (acc ++ [r.toEvent]) n (by simpa using hf)
        (fun r' hr' => hwf r' (List.mem_cons_of_mem _ hr'))
      rw [List.append_assoc] at this
      rw [this]
      simp

/-- The loop of `waitForEvents` finishes within `len + 1` evaluations of its condition. -/
theorem decodeEvents_total (events : List Nat) (len : Int) :
    ∀ (fuel loc : Nat) (acc : List Event), (len - loc).toNat < fuel →
      ∃ es, decodeEvents fuel events len loc acc = some es := by
  intro fuel
  induction fuel with
  | zero => intro loc acc h; omega
  | succ n ih =>
    intro loc acc h
    rw [decodeEvents]
    split_ifs with hlt hout
    · exact ⟨_, rfl⟩
    · dsimp only
      split
      · exact ⟨_, rfl⟩
      · apply ih
        simp only [sizeofInotifyEvent]
        omega
    · exact ⟨_, rfl⟩

/-- The `Event` constructor throws no `std::system_error`. -/
theorem Event.new_ne_system_error (watch watch_handle : Int) (mask cookie : Nat)
    (buf : List Nat) (namePtr : Nat) (nameLen : Int) (n : Int) :
    Event.new watch watch_handle mask cookie buf namePtr nameLen ≠ .error (.system_error n) := by
  unfold Event.new
  split_ifs <;> simp

/-- The decoding loop throws no `std::system_error`. -/
theorem decodeEvents_ne_system_error (events : List Nat) (len : Int) (n : Int) :
    ∀ (fuel loc : Nat) (acc : List Event),
      decodeEvents fuel events len loc acc ≠ some (.error (.system_error n)) := by
  intro fuel
  induction fuel with
  | zero => intro loc acc; simp [decodeEvents]
  | succ k ih =>
    intro loc acc
    rw [decodeEvents]
    split_ifs with hlt hout
    · simp
    · dsimp only
      split
      · rename_i e hnew
        intro hcontra
        have he : e = .system_error n := by
          simpa using hcontra
        exact Event.new_ne_system_error _ _ _ _ _ _ _ n (he ▸ hnew)
      · exact ih _ _
    · simp

/-- What `waitForEvents` returns for a read that fills the array with well-formed records:
their events, in order. -/
theorem waitForEvents_encodeAll (inst : Instance) (rs : List Record) (junk : List Nat)
    (errno : Int) (hwf : ∀ r ∈ rs, r.WellFormed) (hsize : (encodeAll rs).length ≤ buf_size) :
    inst.waitForEvents ⟨((encodeAll rs).length : Nat), errno⟩ (encodeAll rs ++ junk)
      = some (.ok (rs.map Record.toEvent)) := by
  have hne : (((encodeAll rs).length : Nat) : Int) ≠ -1 := by omega
  have hfuel : rs.length < (((encodeAll rs).length : Nat) : Int).toNat + 1 := by
    have := length_le_encodeAll rs
    simp only [Int.toNat_ofNat]
    omega
  have hwf2 : ∀ r ∈ rs, r.WellFormed ∧ r.name.length < 2147483648 := by
    intro r hr
    refine ⟨hwf r hr, ?_⟩
    have := length_encode_le_encodeAll rs r hr
    simp only [buf_size, max_event_count, sizeofInotifyEvent] at hsize
    omega
  have h := decodeEvents_encodeAll rs [] junk [] _ hfuel hwf2
  simp only [List.nil_append, List.length_nil, Nat.zero_add] at h
  simp only [Instance.waitForEvents, if_neg hne]
  exact h

/-- C6. For a successful read that fills the buffer with the concatenation of well-formed
records (at most `buf_size` bytes, whatever the rest of the buffer holds), `waitForEvents`
finishes and returns one `Event` per record, in the order of the records, each with the
watch handle, mask, cookie and name of its record. -/
theorem waitForEvents_decodes (inst : Instance) (rs : List Record) (junk : List Nat)
    (errno : Int) (hwf : ∀ r ∈ rs, r.WellFormed) (hsize : (encodeAll rs).length ≤ buf_size) :
    inst.waitForEvents ⟨((encodeAll rs).length : Nat), errno⟩ (encodeAll rs ++ junk)
      = some (.ok (rs.map Record.toEvent)) :=
  waitForEvents_encodeAll inst rs junk errno hwf hsize

/-- Witness of C6: a create record for "a" padded to four bytes on watch 1, followed by a
moved-from record without a name on watch 2. -/
theorem waitForEvents_decodes_witness :
    (∀ r ∈ [(⟨1, 0x100, 0, [97, 0, 0, 0]⟩ : Record), ⟨2, 0x40, 7, []⟩], r.WellFormed) ∧
    (encodeAll [⟨1, 0x100, 0, [97, 0, 0, 0]⟩, ⟨2, 0x40, 7, []⟩]).length ≤ buf_size ∧
    emptyInstance.waitForEvents
        ⟨((encodeAll [⟨1, 0x100, 0, [97, 0, 0, 0]⟩, ⟨2, 0x40, 7, []⟩]).length : Nat), 0⟩
        (encodeAll [⟨1, 0x100, 0, [97, 0, 0, 0]⟩, ⟨2, 0x40, 7, []⟩] ++ [255, 255])
      = some (.ok ([⟨1, 0x100, 0, [97, 0, 0, 0]⟩, ⟨2, 0x40, 7, []⟩].map Record.toEvent)) :=
  ⟨by decide, by decide,
   waitForEvents_decodes emptyInstance [⟨1, 0x100, 0, [97, 0, 0, 0]⟩, ⟨2, 0x40, 7, []⟩]
     [255, 255] 0 (by decide) (by decide)⟩

/-- C7 as stated fails on the code. A read interrupted by a signal (return value -1,
`errno` equal to `EINTR`) makes `waitForEvents` throw the system error, so "raises an error
exactly when the read fails with an error other than an interrupt" does not hold; and a
read of zero bytes is handed to the caller as an empty vector. -/
theorem waitForEvents_throws_on_EINTR :
    emptyInstance.waitForEvents ⟨-1, EINTR⟩ [] = some (.error (.system_error EINTR)) ∧
    emptyInstance.waitForEvents ⟨0, 0⟩ [] = some (.ok []) ∧
    ¬ (∀ (inst : Instance) (rd : SysResult) (events : List Nat),
        (∃ e, inst.waitForEvents rd events = some (.error e)) ↔
          (rd.ret = -1 ∧ rd.errno ≠ EINTR)) := by
  refine ⟨by decide, by decide, ?_⟩
  intro h
  have h1 := (h emptyInstance ⟨-1, EINTR⟩ []).mp ⟨.system_error EINTR, by decide⟩
  exact h1.2 rfl

/-- C7 as amended. `waitForEvents` makes one read and always finishes.
* When the read returns -1 it throws the `std::system_error` that carries `errno`, whatever
  `errno` is (so also for `EINTR`).
* It throws a `std::system_error` in no other case, whatever the array holds.
* When the read delivers the concatenation of well-formed records (at most `buf_size`
  bytes, zero bytes included) it throws nothing and returns exactly the decoded events of
  these records, in order.
* When the read returns 0 it returns the empty vector. -/
theorem waitForEvents_throws_iff_read_fails (inst : Instance) (rd : SysResult)
    (events : List Nat) :
    (rd.ret = -1 → inst.waitForEvents rd events = some (.error (.system_error rd.errno))) ∧
    ((∃ n, inst.waitForEvents rd events = some (.error (.system_error n))) ↔ rd.ret = -1) ∧
    (∀ (rs : List Record) (junk : List Nat), (∀ r ∈ rs, r.WellFormed) →
      (encodeAll rs).length ≤ buf_size → rd.ret = ((encodeAll rs).length : Nat) →
      events = encodeAll rs ++ junk →
        inst.waitForEvents rd events = some (.ok (rs.map Record.toEvent))) ∧
    (rd.ret = 0 → inst.waitForEvents rd events = some (.ok [])) ∧
    (∃ r, inst.waitForEvents rd events = some r) := by
  have hfail : rd.ret = -1 →
      inst.waitForEvents rd events = some (.error (.system_error rd.errno)) := by
    intro h
    simp [Instance.waitForEvents, h]
  refine ⟨hfail, ⟨?_, fun h => ⟨rd.errno, hfail h⟩⟩, ?_, ?_, ?_⟩
  · rintro ⟨n, hn⟩
    by_contra hne
    simp only [Instance.waitForEvents, if_neg hne] at hn
    exact decodeEvents_ne_system_error events rd.ret n _ _ _ hn
  · intro rs junk hwf hsize hret hev
    have h := waitForEvents_encodeAll inst rs junk rd.errno hwf hsize
    obtain ⟨ret, errno⟩ := rd
    simp only at hret
    subst hret hev
    exact h
  · intro h
    simp [Instance.waitForEvents, h, decodeEvents]
  · by_cases h : rd.ret = -1
    · exact ⟨_, hfail h⟩
    · obtain ⟨es, hes⟩ := decodeEvents_total events rd.ret (rd.ret.toNat + 1) 0 [] (by omega)
      exact ⟨es, by simp only [Instance.waitForEvents, if_neg h, hes]⟩

/-- Witness of C7 as amended: an interrupted read; a read of two records (a create record
for "a" on watch 1 and a moved-from record on watch 2) followed by stale bytes; a read of
zero bytes. -/
theorem waitForEvents_throws_iff_read_fails_witness :
    emptyInstance.waitForEvents ⟨-1, EINTR⟩ [] = some (.error (.system_error EINTR)) ∧
    emptyInstance.waitForEvents ⟨36, 0⟩
        (encodeAll [⟨1, 0x100, 0, [97, 0, 0, 0]⟩, ⟨2, 0x40, 7, []⟩] ++ [255, 255])
      = some (.ok ([⟨1, 0x100, 0, [97, 0, 0, 0]⟩, ⟨2, 0x40, 7, []⟩].map Record.toEvent)) ∧
    emptyInstance.waitForEvents ⟨0, 0⟩ [] = some (.ok []) :=
  ⟨(waitForEvents_throws_iff_read_fails emptyInstance ⟨-1, EINTR⟩ []).1 (by decide),
   (waitForEvents_throws_iff_read_fails emptyInstance ⟨36, 0⟩
      (encodeAll [⟨1, 0x100, 0, [97, 0, 0, 0]⟩, ⟨2, 0x40, 7, []⟩] ++ [255, 255])).2.2.1
      [⟨1, 0x100, 0, [97, 0, 0, 0]⟩, ⟨2, 0x40, 7, []⟩] [255, 255]
      (by decide) (by decide) (by decide) rfl,
   (waitForEvents_throws_iff_read_fails emptyInstance ⟨0, 0⟩ []).2.2.2.1 (by decide)⟩

/-- A record whose `len` field is 2^31 or more makes the `Event` constructor throw
`std::length_error`: the read succeeded, and the error is not a `std::system_error`. -/
theorem waitForEvents_length_error :
    emptyInstance.waitForEvents ⟨16, 0⟩
        (le32 1 ++ le32 0x100 ++ le32 0 ++ [255, 255, 255, 255])
      = some (.error .length_error) := by
  decide

/-! ## `watchForFileChanges` -/

/-- C9, evaluated on the code. One entry for "/data", whose walk reports "/data/sub"; the
kernel returns descriptors 1 and 2. `createINotifyWatches` returns normally, both handles
are keys of `watches`, and `watchToConfig` has handle 1 only: handle 2, the watch of the
subdirectory, is not mapped to the entry. -/
theorem createINotifyWatches_maps_root_only :
    (createINotifyWatches walkData osData [dataEntry] emptyInstance []).1 = .ok () ∧
    (createINotifyWatches walkData osData [dataEntry] emptyInstance []).2.1.watches
      = [(1, ⟨3, 1, ""⟩), (2, ⟨3, 2, ""⟩)] ∧
    (createINotifyWatches walkData osData [dataEntry] emptyInstance []).2.2 = [(1, dataEntry)] ∧
    StdMap.find (createINotifyWatches walkData osData [dataEntry] emptyInstance []).2.2 1
      = some dataEntry ∧
    StdMap.find (createINotifyWatches walkData osData [dataEntry] emptyInstance []).2.2 2
      = none := by
  decide

/-! ## `Event::path` -/

/-- Whatever `joinPaths` computes, `Event::path()` returns the path of the watch alone
when the handle is registered, and throws when it is not. -/
theorem Event.path_eq (jp : String → String → String) (inst : Instance) (e : Event) :
    (∀ w, StdMap.find inst.watches e.watch = some w → e.path jp inst = .ok w.path) ∧
    (StdMap.find inst.watches e.watch = none → e.path jp inst = .error .out_of_range) := by
  constructor
  · intro w h
    simp [Event.path, Event.getWatch, Instance.watchFromHandle, h]
  · intro h
    simp [Event.path, Event.getWatch, Instance.watchFromHandle, h]

/-- C10, evaluated on the code. For the event "a.txt" on watch 1: on a registry whose watch
1 has path "/data", `path()` returns "/data", where `joinPaths` gives "/data/a.txt"; on the
registry that `addWatch("/data")` builds, `path()` returns the empty string; with no watch
registered it throws `std::out_of_range`. -/
theorem Event_path_drops_name :
    createdA.path joinPaths dataInstance = .ok "/data" ∧
    joinPaths "/data" "a.txt" = "/data/a.txt" ∧
    createdA.path joinPaths watchingData = .ok "" ∧
    createdA.path joinPaths emptyInstance = .error .out_of_range := by
  decide

end cdnalizerd
